import Mathlib

/-!
Shallow embedding of the FSM interpreter core (`src/core_engine/fsm_core.cpp`)
and verification of its specification.

Modelling conventions:
* `std::vector` becomes `List`; `std::vector::back` becomes `List.getLast?`,
  `push_back` becomes `++ [x]`, `pop_back` becomes `List.dropLast`.
* `std::map<std::string, V>` becomes an association list with unique keys
  (`alSet` updates in place or appends).  The C++ map is key-ordered; the
  association list models its contents (key set and values, hence lookup
  behaviour), not its internal ordering.
* `State*` pointers into the `states_` vector become `Nat` indices into the
  `states` list; the null pointer that `std::map::operator[]` default-inserts
  becomes `Option.none` in the map's value type `Option Nat`.
* The C++ `int current_tick_` only ever starts at 0 and increments, so it is
  modelled by `Nat`.
* JSON parsing and serialisation are host-side marshaling; a load document is
  modelled post-parse: `LoadDoc.malformed` is an input on which `json::parse`
  throws, and inside a well-formed document an `Option.none` element stands
  for an array element whose field extraction throws (e.g. a non-object).
* Where the C++ has undefined behaviour (`back()` on an empty
  `current_state_path_`, dereferencing a dangling index), the model takes the
  innocuous total extension (default `State`, no-op); these situations are
  unreachable through the guarded public entry points exercised here.
-/

namespace FsmCore

/-- Embeds `struct State` of fsm_core.cpp. -/
structure State where
  name : String
  entry_action : String
  during_action : String
  exit_action : String
  is_initial : Bool
  is_final : Bool
deriving DecidableEq, Repr

instance : Inhabited State := ⟨⟨"", "", "", "", false, false⟩⟩

/-- Embeds `struct Transition` of fsm_core.cpp. -/
structure Transition where
  source : String
  target : String
  event : String
  condition : String
  action : String
deriving DecidableEq, Repr

/-- One entry of `action_log_`: the C++ stores the dump of `{type, data}`. -/
structure LogEntry where
  type : String
  data : String
deriving DecidableEq, Repr

/-- Association-list lookup, modelling `std::map` lookup. -/
def alFind {α : Type} : List (String × α) → String → Option α
  | [], _ => none
  | (k, v) :: rest, key => if k = key then some v else alFind rest key

/-- Association-list insert-or-update, modelling `std::map::operator[] =`. -/
def alSet {α : Type} : List (String × α) → String → α → List (String × α)
  | [], key, v => [(key, v)]
  | (k, w) :: rest, key, v =>
      if k = key then (k, v) :: rest else (k, w) :: alSet rest key v

/-- The whole `FsmSimulator` object: Model fields (`states`, `state_map`,
`transitions`) plus Simulation State fields. -/
structure FsmSimulator where
  states : List State
  state_map : List (String × Option Nat)
  transitions : List Transition
  current_tick : Nat
  current_state_path : List Nat
  variables_ : List (String × String)
  initial_variables : List (String × String)
  action_log : List LogEntry
  pending_transition : Option Transition
  internal_event_queue : List String
deriving DecidableEq, Repr

/-- Embeds `FsmSimulator::logAction`. -/
def logAction (fsm : FsmSimulator) (type data : String) : FsmSimulator :=
  if data ≠ "" then
    { fsm with action_log := fsm.action_log ++ [⟨type, data⟩] }
  else fsm

/-- Embeds `FsmSimulator::executeAction`. -/
def executeAction (fsm : FsmSimulator) (type code : String) : FsmSimulator :=
  if code ≠ "" then logAction fsm type code else fsm

/-- The state currently pointed at by `current_state_path_.back()`; the
default `State` stands in for the C++ undefined behaviour on an empty path or
a dangling pointer. -/
def leafStateD (fsm : FsmSimulator) : State :=
  (fsm.current_state_path.getLast?.bind (fun i => fsm.states[i]?)).getD default

/-- Embeds `FsmSimulator::enterState`. -/
def enterState (fsm : FsmSimulator) (idx : Nat) : FsmSimulator :=
  let fsm1 := { fsm with current_state_path := fsm.current_state_path ++ [idx] }
  executeAction fsm1 "ENTRY_STATE" (((fsm1.states[idx]?).getD default).entry_action)

/-- Embeds `FsmSimulator::executeTransition`.  Note `state_map_[trans.target]`:
`std::map::operator[]` inserts a null mapping when the key is absent. -/
def executeTransition (fsm : FsmSimulator) (t : Transition) : FsmSimulator :=
  let fsm1 := executeAction fsm "EXIT_STATE" (leafStateD fsm).exit_action
  let fsm2 := executeAction fsm1 "TRANSITION_ACTION" t.action
  let fsm3 := { fsm2 with current_state_path := fsm2.current_state_path.dropLast }
  match alFind fsm3.state_map t.target with
  | some (some idx) => enterState fsm3 idx
  | some none => fsm3
  | none => { fsm3 with state_map := alSet fsm3.state_map t.target none }

/-- The initial-state policy of `FsmSimulator::reset`: first state flagged
`is_initial`, else the first state, else none. -/
def initialStateIdx (states : List State) : Option Nat :=
  match states.findIdx? (fun s => s.is_initial) with
  | some i => some i
  | none => if states.isEmpty then none else some 0

/-- Embeds `FsmSimulator::reset`. -/
def reset (fsm : FsmSimulator) : FsmSimulator :=
  let fsm1 := { fsm with
    action_log := []
    variables_ := fsm.initial_variables
    current_tick := 0
    current_state_path := []
    pending_transition := none
    internal_event_queue := [] }
  match initialStateIdx fsm1.states with
  | some i => enterState fsm1 i
  | none => fsm1

/-- Embeds `create_fsm`: a fresh `FsmSimulator` (the constructor calls `reset`). -/
def create : FsmSimulator :=
  reset ⟨[], [], [], 0, [], [], [], [], none, []⟩

/-- The transition scan of `FsmSimulator::step`: first transition in
declaration order whose source and event match. -/
def findTransition (transitions : List Transition) (src ev : String) :
    Option Transition :=
  transitions.find? (fun t => t.source == src && t.event == ev)

/-- The event-processing `while` loop of `FsmSimulator::step`.  The first
argument is the value of `internal_event_queue_` at loop entry; each
iteration pops the head into the member queue exactly as the C++ does.
`ext` is `!event_name_str.empty()`.  The `none` branch on an empty path is
the total extension of C++ undefined behaviour and is unreachable from
`step`, which returns early on an empty path. -/
def stepLoop : List String → Bool → FsmSimulator → FsmSimulator
  | [], _, fsm => fsm
  | ev :: rest, ext, fsm =>
    let fsm1 := { fsm with internal_event_queue := rest }
    let fsm2 := if fsm1.current_tick == 0 || ext then
        { fsm1 with current_tick := fsm1.current_tick + 1 }
      else fsm1
    match fsm2.current_state_path.getLast? with
    | none => fsm2
    | some _ =>
      match findTransition fsm2.transitions (leafStateD fsm2).name ev with
      | some t =>
        if t.condition ≠ "" then
          { logAction fsm2 "AWAIT_CONDITION" t.condition with
              pending_transition := some t }
        else
          executeTransition fsm2 t
      | none => stepLoop rest ext fsm2

/-- Embeds `FsmSimulator::step`. -/
def step (fsm : FsmSimulator) (event_name : String) : FsmSimulator :=
  let fsm1 := { fsm with action_log := [] }
  let fsm2 := if event_name ≠ "" then
      { fsm1 with internal_event_queue := fsm1.internal_event_queue ++ [event_name] }
    else fsm1
  if fsm2.current_state_path.isEmpty then fsm2
  else
    let fsm3 := if event_name = "" then
        let fsmT := { fsm2 with current_tick := fsm2.current_tick + 1 }
        executeAction fsmT "DURING_ACTION" (leafStateD fsmT).during_action
      else fsm2
    stepLoop fsm3.internal_event_queue (event_name ≠ "") fsm3

/-- Embeds `FsmSimulator::resolve_condition`. -/
def resolve_condition (fsm : FsmSimulator) (result : Bool) : FsmSimulator :=
  let fsm1 := { fsm with action_log := [] }
  match fsm1.pending_transition with
  | none => fsm1
  | some t =>
    let fsm2 := if result then executeTransition fsm1 t
      else logAction fsm1 "INFO" "Condition failed, transition aborted."
    { fsm2 with pending_transition := none }

/-- Embeds `FsmSimulator::queue_internal_event`. -/
def queue_internal_event (fsm : FsmSimulator) (event_name : String) :
    FsmSimulator :=
  { fsm with internal_event_queue := fsm.internal_event_queue ++ [event_name] }

/-- Embeds `FsmSimulator::getCurrentStateName`. -/
def getCurrentStateName (fsm : FsmSimulator) : String :=
  if fsm.current_state_path.isEmpty then "Halted" else (leafStateD fsm).name

/-- Embeds `FsmSimulator::getAndClearLogJson`, returning the log entries (the JSON
dump is host-side marshaling) together with the cleared simulator. -/
def getAndClearLogJson (fsm : FsmSimulator) : List LogEntry × FsmSimulator :=
  (fsm.action_log, { fsm with action_log := [] })

/-- A model document for `loadFromJson`, post-parse: `malformed` is an input
on which `json::parse` throws; an `Option.none` list element is an array
element whose field extraction throws mid-load. -/
inductive LoadDoc where
  | malformed : LoadDoc
  | doc (states : List (Option State)) (transitions : List (Option Transition)) : LoadDoc
deriving DecidableEq, Repr

/-- Elements successfully extracted before the first throwing element, and
whether the whole list was extracted. -/
def takeGood {α : Type} : List (Option α) → List α × Bool
  | [] => ([], true)
  | some a :: rest => let (l, ok) := takeGood rest; (a :: l, ok)
  | none :: _ => ([], false)

/-- The name-map rebuild of `loadFromJson`: `state_map_[state.name] =
&state` for each state in order (a duplicate name shadows the earlier one). -/
def buildMap (states : List State) : List (String × Option Nat) :=
  states.enum.foldl (fun m p => alSet m p.2.name (some p.1)) []

/-- Embeds `load_fsm_from_json` wrapping `FsmSimulator::loadFromJson`: clears the
model containers first, then parses; any throw is caught by the C wrapper,
which returns false.  A throw while extracting states leaves the map and
transitions empty; a throw while extracting transitions leaves states and
map fully built. -/
def loadFromJson (fsm : FsmSimulator) (d : LoadDoc) : Bool × FsmSimulator :=
  let fsm1 := { fsm with states := [], state_map := [], transitions := [] }
  match d with
  | .malformed => (false, fsm1)
  | .doc sdocs tdocs =>
    let (ss, okS) := takeGood sdocs
    let fsm2 := { fsm1 with states := ss }
    if !okS then (false, fsm2)
    else
      let fsm3 := { fsm2 with state_map := buildMap ss }
      let (ts, okT) := takeGood tdocs
      let fsm4 := { fsm3 with transitions := ts }
      if !okT then (false, fsm4) else (true, fsm4)

/-- Embeds `FsmSimulator::setInitialVariables`, given the parsed key/value items
(each value already in its dumped canonical form). -/
def setInitialVariables (fsm : FsmSimulator) (kvs : List (String × String)) :
    FsmSimulator :=
  { fsm with initial_variables := kvs.foldl (fun m p => alSet m p.1 p.2) [] }

/-- One call through the public interface. -/
inductive Op where
  | load (d : LoadDoc) : Op
  | setVars (kvs : List (String × String)) : Op
  | reset : Op
  | step (ev : String) : Op
  | resolve (b : Bool) : Op
  | queueEvent (ev : String) : Op
deriving DecidableEq, Repr

/-- Apply one interface call. -/
def applyOp (fsm : FsmSimulator) : Op → FsmSimulator
  | .load d => (loadFromJson fsm d).2
  | .setVars kvs => setInitialVariables fsm kvs
  | .reset => reset fsm
  | .step ev => step fsm ev
  | .resolve b => resolve_condition fsm b
  | .queueEvent ev => queue_internal_event fsm ev

/-- Run a sequence of interface calls. -/
def runOps (fsm : FsmSimulator) (ops : List Op) : FsmSimulator :=
  ops.foldl applyOp fsm

/-- Interpreter states reachable from `create` through the interface. -/
def Reachable (fsm : FsmSimulator) : Prop :=
  ∃ ops : List Op, runOps create ops = fsm

/-- Holds when every `queue_internal_event` call in the sequence passes a non-empty
event name. -/
def OpsGood : List Op → Bool
  | [] => true
  | .queueEvent e :: rest => (!(e == "")) && OpsGood rest
  | _ :: rest => OpsGood rest

/-- Every queued internal event is non-empty. -/
def QueueGood (fsm : FsmSimulator) : Bool :=
  fsm.internal_event_queue.all (fun e => !(e == ""))

/-- Returns `[⟨type, data⟩]` when `data` is non-empty, else `[]`: the log footprint
of one `executeAction`/`logAction` call. -/
def optEntry (type data : String) : List LogEntry :=
  if data ≠ "" then [⟨type, data⟩] else []

/-! ### Concrete fixtures used by witnesses and counterexamples -/

/-- A state named "A", initial, with a during action. -/
def stateA : State := ⟨"A", "", "tickA", "", true, false⟩

/-- A state named "A", initial, with an exit action. -/
def stateAx : State := ⟨"A", "", "", "bye", true, false⟩

/-- A state named "B" with an entry action. -/
def stateB : State := ⟨"B", "enterB", "", "", false, false⟩

/-- An interpreter with a one-state model loaded. -/
def fsmLoaded : FsmSimulator :=
  (loadFromJson create (LoadDoc.doc [some stateA] [])).2

/-- An interpreter whose only transition goes from "A" to the absent state
"M" on event "go", reset onto "A". -/
def fsmMissingTarget : FsmSimulator :=
  runOps create
    [Op.load (LoadDoc.doc [some stateAx] [some ⟨"A", "M", "go", "", "act"⟩]),
     Op.reset]

/-- An interpreter in "A" with two internal events queued and no
transitions at all. -/
def fsmQueued : FsmSimulator :=
  runOps create
    [Op.load (LoadDoc.doc [some stateA] []), Op.reset,
     Op.queueEvent "X", Op.queueEvent "Y"]

/-- An interpreter whose single transition "A" to "B" fires on the EMPTY
event name, after an empty internal event has been queued and processed. -/
def fsmEmptyEvent : FsmSimulator :=
  runOps create
    [Op.load (LoadDoc.doc [some stateA, some stateB]
        [some ⟨"A", "B", "", "", ""⟩]),
     Op.reset, Op.queueEvent "", Op.step ""]

/-- An interpreter with an unconditional transition "A" to "B" on "go". -/
def fsmAB : FsmSimulator :=
  runOps create
    [Op.load (LoadDoc.doc [some stateAx, some stateB]
        [some ⟨"A", "B", "go", "", "act"⟩]),
     Op.reset]

/-- An interpreter with a guarded transition "A" to "B" on "go". -/
def fsmCond : FsmSimulator :=
  runOps create
    [Op.load (LoadDoc.doc [some stateA, some stateB]
        [some ⟨"A", "B", "go", "x > 1", "act"⟩]),
     Op.reset]

/-! ### Normal forms for the private helpers -/

theorem logAction_eq (fsm : FsmSimulator) (ty da : String) :
    logAction fsm ty da = { fsm with action_log := fsm.action_log ++ optEntry ty da } := by
  unfold logAction optEntry
  split
  · rfl
  · simp

theorem executeAction_eq (fsm : FsmSimulator) (ty code : String) :
    executeAction fsm ty code = { fsm with action_log := fsm.action_log ++ optEntry ty code } := by
  unfold executeAction
  split
  · exact logAction_eq fsm ty code
  · unfold optEntry
    split
    · simp_all
    · simp

theorem enterState_eq (fsm : FsmSimulator) (idx : Nat) :
    enterState fsm idx =
      { fsm with
          current_state_path := fsm.current_state_path ++ [idx]
          action_log := fsm.action_log ++
            optEntry "ENTRY_STATE" (((fsm.states[idx]?).getD default).entry_action) } := by
  unfold enterState
  rw [executeAction_eq]

/-- If a key is absent, `alSet` appends it at the end. -/
theorem alSet_of_absent {α : Type} (m : List (String × α)) (k : String) (v : α)
    (h : alFind m k = none) : alSet m k v = m ++ [(k, v)] := by
  induction m with
  | nil => rfl
  | cons p rest ih =>
    unfold alFind at h
    unfold alSet
    by_cases hk : p.1 = k
    · simp [hk] at h
    · simp only [hk, if_false]
      have := ih (by simpa [hk] using h)
      simp [this]

/-- Normal form of `executeTransition`. -/
theorem executeTransition_eq (fsm : FsmSimulator) (t : Transition) :
    executeTransition fsm t =
      let pre := fsm.action_log ++ optEntry "EXIT_STATE" (leafStateD fsm).exit_action
        ++ optEntry "TRANSITION_ACTION" t.action
      match alFind fsm.state_map t.target with
      | some (some idx) =>
          { fsm with
              action_log := pre ++
                optEntry "ENTRY_STATE" (((fsm.states[idx]?).getD default).entry_action)
              current_state_path := fsm.current_state_path.dropLast ++ [idx] }
      | some none =>
          { fsm with action_log := pre
                     current_state_path := fsm.current_state_path.dropLast }
      | none =>
          { fsm with action_log := pre
                     current_state_path := fsm.current_state_path.dropLast
                     state_map := alSet fsm.state_map t.target none } := by
  unfold executeTransition
  simp only [executeAction_eq, enterState_eq]
  split <;> simp_all

/-- What `executeTransition` can never change, and how it can change the
name map: unchanged, or one null entry appended for an absent target. -/
theorem executeTransition_frame (fsm : FsmSimulator) (t : Transition) :
    (executeTransition fsm t).states = fsm.states ∧
    (executeTransition fsm t).transitions = fsm.transitions ∧
    (executeTransition fsm t).variables_ = fsm.variables_ ∧
    (executeTransition fsm t).initial_variables = fsm.initial_variables ∧
    (executeTransition fsm t).current_tick = fsm.current_tick ∧
    (executeTransition fsm t).internal_event_queue = fsm.internal_event_queue ∧
    (executeTransition fsm t).pending_transition = fsm.pending_transition ∧
    ((executeTransition fsm t).state_map = fsm.state_map ∨
      ∃ k, alFind fsm.state_map k = none ∧
        (executeTransition fsm t).state_map = fsm.state_map ++ [(k, none)]) := by
  rw [executeTransition_eq]
  simp only []
  split
  · simp
  · simp
  · rename_i h
    refine ⟨rfl, rfl, rfl, rfl, rfl, rfl, rfl, Or.inr ⟨t.target, h, ?_⟩⟩
    simpa using alSet_of_absent fsm.state_map t.target none h

/-- One iteration of the event loop, with the tick choice pushed into the
tick field. -/
theorem stepLoop_cons (ev : String) (rest : List String) (ext : Bool)
    (fsm : FsmSimulator) :
    stepLoop (ev :: rest) ext fsm =
      (fun fsm2 =>
        match fsm2.current_state_path.getLast? with
        | none => fsm2
        | some _ =>
          match findTransition fsm2.transitions (leafStateD fsm2).name ev with
          | some t =>
            if t.condition ≠ "" then
              { logAction fsm2 "AWAIT_CONDITION" t.condition with
                  pending_transition := some t }
            else
              executeTransition fsm2 t
          | none => stepLoop rest ext fsm2)
      { fsm with
          internal_event_queue := rest
          current_tick := if fsm.current_tick == 0 || ext then
              fsm.current_tick + 1
            else fsm.current_tick } := by
  by_cases h : (fsm.current_tick == 0 || ext) = true
  · simp only [stepLoop, h, if_true, if_false, Bool.not_eq_true]
  · simp only [stepLoop, h, if_true, if_false, Bool.not_eq_true]
    all_goals rfl

/-- The event loop of `step` preserves the Model fields, except that the name
map may gain null entries for absent targets. -/
theorem stepLoop_frame (q : List String) (ext : Bool) :
    ∀ fsm : FsmSimulator,
    (stepLoop q ext fsm).states = fsm.states ∧
    (stepLoop q ext fsm).transitions = fsm.transitions ∧
    (stepLoop q ext fsm).variables_ = fsm.variables_ ∧
    (stepLoop q ext fsm).initial_variables = fsm.initial_variables ∧
    ((stepLoop q ext fsm).state_map = fsm.state_map ∨
      ∃ k, alFind fsm.state_map k = none ∧
        (stepLoop q ext fsm).state_map = fsm.state_map ++ [(k, none)]) := by
  induction q with
  | nil => intro fsm; simp [stepLoop]
  | cons ev rest ih =>
    intro fsm
    rw [stepLoop_cons]
    simp only []
    split
    · simp
    · split
      · split
        · simp [logAction_eq]
        · rename_i t _ _
          obtain ⟨h1, h2, h3, h4, _, _, _, h8⟩ := executeTransition_frame _ t
          exact ⟨h1, h2, h3, h4, h8⟩
      · exact ih _

/-- Fact: `executeTransition` touches neither the tick nor the event queue nor the
pending slot. -/
theorem executeTransition_sim_frame (fsm : FsmSimulator) (t : Transition) :
    (executeTransition fsm t).current_tick = fsm.current_tick ∧
    (executeTransition fsm t).internal_event_queue = fsm.internal_event_queue ∧
    (executeTransition fsm t).pending_transition = fsm.pending_transition := by
  obtain ⟨_, _, _, _, h5, h6, h7, _⟩ := executeTransition_frame fsm t
  exact ⟨h5, h6, h7⟩

/-- Fact: `executeTransition` keeps the state path at length at most one. -/
theorem executeTransition_path_le (fsm : FsmSimulator) (t : Transition)
    (h : fsm.current_state_path.length ≤ 1) :
    (executeTransition fsm t).current_state_path.length ≤ 1 := by
  rw [executeTransition_eq]
  simp only []
  split <;> simp <;> omega

/-- The event loop keeps the state path at length at most one. -/
theorem stepLoop_path_le (q : List String) (ext : Bool) :
    ∀ fsm : FsmSimulator, fsm.current_state_path.length ≤ 1 →
    (stepLoop q ext fsm).current_state_path.length ≤ 1 := by
  induction q with
  | nil => intro fsm h; simpa [stepLoop] using h
  | cons ev rest ih =>
    intro fsm h
    rw [stepLoop_cons]
    simp only []
    split
    · simpa using h
    · split
      · split
        · simpa [logAction_eq] using h
        · rename_i t _ _
          exact executeTransition_path_le _ t (by simpa using h)
      · exact ih _ (by simpa using h)

/-- Every event left in the queue by the event loop was in the queue the
loop started from. -/
theorem stepLoop_queue_sub (q : List String) (ext : Bool) :
    ∀ fsm : FsmSimulator, fsm.internal_event_queue = q →
    ∀ x ∈ (stepLoop q ext fsm).internal_event_queue, x ∈ q := by
  induction q with
  | nil => intro fsm h x hx; simp [stepLoop] at hx; simp [h] at hx
  | cons ev rest ih =>
    intro fsm h x hx
    rw [stepLoop_cons] at hx
    simp only [] at hx
    split at hx
    · simp at hx; simp [hx]
    · split at hx
      · split at hx
        · simp [logAction_eq] at hx; simp [hx]
        · rename_i t _ _
          rw [(executeTransition_sim_frame _ t).2.1] at hx
          simp at hx; simp [hx]
      · have := ih _ (by simp) x hx
        simp [this]

/-- With a non-empty external event, the loop advances the tick once per
dequeued event: the tick delta equals the number of events consumed. -/
theorem stepLoop_tick_ext (q : List String) :
    ∀ fsm : FsmSimulator, fsm.internal_event_queue = q →
    (stepLoop q true fsm).current_tick
        = fsm.current_tick + (q.length - (stepLoop q true fsm).internal_event_queue.length)
      ∧ (stepLoop q true fsm).internal_event_queue.length ≤ q.length := by
  induction q with
  | nil => intro fsm h; simp [stepLoop, h]
  | cons ev rest ih =>
    intro fsm h
    rw [stepLoop_cons]
    simp only [Bool.or_true, if_true]
    split
    · simp
    · split
      · split
        · simp [logAction_eq]
        · rename_i t _ _
          obtain ⟨ht, hq, _⟩ := executeTransition_sim_frame _ t
          rw [ht, hq]
          simp
      · obtain ⟨h1, h2⟩ := ih ⟨fsm.states, fsm.state_map, fsm.transitions,
          fsm.current_tick + 1, fsm.current_state_path, fsm.variables_,
          fsm.initial_variables, fsm.action_log, fsm.pending_transition, rest⟩ rfl
        rw [h1]
        simp only [List.length_cons]
        constructor
        all_goals omega

/-- Dequeued events with no matching transition are dropped silently: the
loop reaches the first event `e` that does have a match, with only the tick
and the queue changed. -/
theorem stepLoop_skip (pre : List String) :
    ∀ (ext : Bool) (e : String) (post : List String) (fsm : FsmSimulator)
      (cIdx : Nat) (cur : State),
    fsm.current_state_path = [cIdx] →
    fsm.states[cIdx]? = some cur →
    fsm.internal_event_queue = pre ++ e :: post →
    (∀ x ∈ pre, findTransition fsm.transitions cur.name x = none) →
    ∃ tk, stepLoop (pre ++ e :: post) ext fsm
        = stepLoop (e :: post) ext
            { fsm with current_tick := tk, internal_event_queue := e :: post } := by
  induction pre with
  | nil =>
    intro ext e post fsm cIdx cur hpath hstate hq hnm
    refine ⟨fsm.current_tick, ?_⟩
    simp only [List.nil_append] at hq ⊢
    rw [← hq]
  | cons x pre' ih =>
    intro ext e post fsm cIdx cur hpath hstate hq hnm
    rw [List.cons_append, stepLoop_cons]
    simp only []
    generalize (if (fsm.current_tick == 0 || ext) = true then
        fsm.current_tick + 1 else fsm.current_tick) = tk0
    simp only [hpath, leafStateD, List.getLast?_singleton, Option.some_bind,
      Option.getD_some, hstate, hnm x (List.mem_cons_self x pre')]
    obtain ⟨tk, hih⟩ := ih ext e post
      ⟨fsm.states, fsm.state_map, fsm.transitions, tk0, fsm.current_state_path,
        fsm.variables_, fsm.initial_variables, fsm.action_log,
        fsm.pending_transition, pre' ++ e :: post⟩ cIdx cur hpath hstate rfl
      (fun y hy => hnm y (List.mem_cons_of_mem x hy))
    refine ⟨tk, ?_⟩
    simpa [hpath] using hih

/-- A dequeued event whose first matching transition is guarded: the loop
logs one `AWAIT_CONDITION` entry, stores the pending transition, and stops,
leaving the remaining queue in place. -/
theorem stepLoop_await (ext : Bool) (e : String) (post : List String)
    (fsm : FsmSimulator) (cIdx : Nat) (cur : State) (t : Transition)
    (hpath : fsm.current_state_path = [cIdx])
    (hstate : fsm.states[cIdx]? = some cur)
    (hfind : findTransition fsm.transitions cur.name e = some t)
    (hcond : t.condition ≠ "") :
    stepLoop (e :: post) ext fsm =
      { fsm with
          current_tick := if fsm.current_tick == 0 || ext then
              fsm.current_tick + 1
            else fsm.current_tick
          internal_event_queue := post
          action_log := fsm.action_log ++ [⟨"AWAIT_CONDITION", t.condition⟩]
          pending_transition := some t } := by
  rw [stepLoop_cons]
  simp only [hpath, leafStateD, List.getLast?_singleton, Option.some_bind,
    Option.getD_some, hstate, hfind]
  simp [logAction_eq, optEntry, hcond]

/-- A dequeued event whose first matching transition is unguarded, with the
target present: the transition executes, appending exit, transition, and
entry entries and moving the path to the target. -/
theorem stepLoop_take (ext : Bool) (e : String) (post : List String)
    (fsm : FsmSimulator) (cIdx : Nat) (cur : State) (t : Transition)
    (tIdx : Nat) (tgt : State)
    (hpath : fsm.current_state_path = [cIdx])
    (hstate : fsm.states[cIdx]? = some cur)
    (hfind : findTransition fsm.transitions cur.name e = some t)
    (hcond : t.condition = "")
    (hmap : alFind fsm.state_map t.target = some (some tIdx))
    (htgt : fsm.states[tIdx]? = some tgt) :
    stepLoop (e :: post) ext fsm =
      { fsm with
          current_tick := if fsm.current_tick == 0 || ext then
              fsm.current_tick + 1
            else fsm.current_tick
          internal_event_queue := post
          action_log := fsm.action_log ++ optEntry "EXIT_STATE" cur.exit_action
            ++ optEntry "TRANSITION_ACTION" t.action
            ++ optEntry "ENTRY_STATE" tgt.entry_action
          current_state_path := [tIdx] } := by
  rw [stepLoop_cons]
  simp only [hpath, leafStateD, List.getLast?_singleton, Option.some_bind,
    Option.getD_some, hstate, hfind]
  simp only [hcond, ne_eq, not_true_eq_false, if_false]
  rw [executeTransition_eq]
  simp only [leafStateD, hpath, List.getLast?_singleton, Option.some_bind,
    Option.getD_some, hstate, hmap, htgt]
  simp [hpath]

/-- The loop never grows the queue. -/
theorem stepLoop_queue_len (q : List String) (ext : Bool) :
    ∀ fsm : FsmSimulator, fsm.internal_event_queue = q →
    (stepLoop q ext fsm).internal_event_queue.length ≤ q.length := by
  induction q with
  | nil => intro fsm h; simp [stepLoop, h]
  | cons ev rest ih =>
    intro fsm h
    rw [stepLoop_cons]
    simp only []
    split
    · simp
    · split
      · split
        · simp [logAction_eq]
        · rename_i t _ _
          rw [(executeTransition_sim_frame _ t).2.1]
          simp
      · have := ih ⟨fsm.states, fsm.state_map, fsm.transitions,
          if (fsm.current_tick == 0 || ext) = true then fsm.current_tick + 1
            else fsm.current_tick,
          fsm.current_state_path, fsm.variables_, fsm.initial_variables,
          fsm.action_log, fsm.pending_transition, rest⟩ rfl
        simp only [List.length_cons]
        omega

/-- A loop run on a non-empty queue consumes at least its head. -/
theorem stepLoop_queue_len_cons (ev : String) (rest : List String) (ext : Bool)
    (fsm : FsmSimulator) :
    (stepLoop (ev :: rest) ext fsm).internal_event_queue.length ≤ rest.length := by
  rw [stepLoop_cons]
  simp only []
  split
  · simp
  · split
    · split
      · simp [logAction_eq]
      · rename_i t _ _
        rw [(executeTransition_sim_frame _ t).2.1]
    · exact stepLoop_queue_len rest ext ⟨fsm.states, fsm.state_map,
        fsm.transitions,
        if (fsm.current_tick == 0 || ext) = true then fsm.current_tick + 1
          else fsm.current_tick,
        fsm.current_state_path, fsm.variables_, fsm.initial_variables,
        fsm.action_log, fsm.pending_transition, rest⟩ rfl

/-- Fact: `loadFromJson` never touches any Simulation State field, whether it
succeeds or fails. -/
theorem loadFromJson_sim_frame (fsm : FsmSimulator) (d : LoadDoc) :
    (loadFromJson fsm d).2.current_tick = fsm.current_tick ∧
    (loadFromJson fsm d).2.current_state_path = fsm.current_state_path ∧
    (loadFromJson fsm d).2.variables_ = fsm.variables_ ∧
    (loadFromJson fsm d).2.initial_variables = fsm.initial_variables ∧
    (loadFromJson fsm d).2.action_log = fsm.action_log ∧
    (loadFromJson fsm d).2.pending_transition = fsm.pending_transition ∧
    (loadFromJson fsm d).2.internal_event_queue = fsm.internal_event_queue := by
  unfold loadFromJson
  cases d with
  | malformed => simp
  | doc sdocs tdocs =>
    simp only []
    rcases takeGood sdocs with ⟨ss, okS⟩
    simp only []
    split
    · simp
    · rcases takeGood tdocs with ⟨ts, okT⟩
      simp only []
      split <;> simp

/-- What `reset` establishes, and what it leaves alone. -/
theorem reset_sim (fsm : FsmSimulator) :
    (reset fsm).internal_event_queue = [] ∧
    (reset fsm).pending_transition = none ∧
    (reset fsm).current_tick = 0 ∧
    (reset fsm).variables_ = fsm.initial_variables ∧
    (reset fsm).current_state_path.length ≤ 1 ∧
    (reset fsm).states = fsm.states ∧
    (reset fsm).state_map = fsm.state_map ∧
    (reset fsm).transitions = fsm.transitions ∧
    (reset fsm).initial_variables = fsm.initial_variables := by
  unfold reset
  simp only []
  split
  · simp [enterState_eq]
  · simp

/-- Fact: `resolve_condition` never touches the queue, and keeps the path short. -/
theorem resolve_condition_sim (fsm : FsmSimulator) (b : Bool) :
    (resolve_condition fsm b).internal_event_queue = fsm.internal_event_queue ∧
    (fsm.current_state_path.length ≤ 1 →
      (resolve_condition fsm b).current_state_path.length ≤ 1) := by
  unfold resolve_condition
  simp only []
  split
  · simp
  · rename_i t _
    split
    · constructor
      · exact (executeTransition_sim_frame _ t).2.1
      · intro h
        exact executeTransition_path_le _ t (by simpa using h)
    · simp [logAction_eq]

/-- Every event in the queue after a `step` call was already queued before
the call or is the call's own (non-empty) external event. -/
theorem step_queue_sub (fsm : FsmSimulator) (ev : String) :
    ∀ x ∈ (step fsm ev).internal_event_queue,
      x ∈ fsm.internal_event_queue ∨ (ev ≠ "" ∧ x = ev) := by
  intro x hx
  unfold step at hx
  simp only [] at hx
  by_cases hev : ev = ""
  · simp only [hev, ne_eq, not_true_eq_false, if_false, ite_true] at hx
    split at hx
    · exact Or.inl hx
    · rw [executeAction_eq] at hx
      have := stepLoop_queue_sub _ _ _ rfl x hx
      exact Or.inl this
  · simp only [hev, ne_eq, not_false_eq_true, if_true, ite_false] at hx
    split at hx
    · simp at hx
      rcases hx with h | h
      · exact Or.inl h
      · exact Or.inr ⟨hev, h⟩
    · have := stepLoop_queue_sub (fsm.internal_event_queue ++ [ev]) _ _ rfl x hx
      simp at this
      rcases this with h | h
      · exact Or.inl h
      · exact Or.inr ⟨hev, h⟩

/-- Fact: `step` keeps the path at length at most one. -/
theorem step_path_le (fsm : FsmSimulator) (ev : String)
    (h : fsm.current_state_path.length ≤ 1) :
    (step fsm ev).current_state_path.length ≤ 1 := by
  unfold step
  simp only []
  by_cases hev : ev = ""
  · simp only [hev, ne_eq, not_true_eq_false, if_false, ite_true]
    split
    · simpa using h
    · rw [executeAction_eq]
      exact stepLoop_path_le _ _ _ (by simpa using h)
  · simp only [hev, ne_eq, not_false_eq_true, if_true, ite_false]
    split
    · simpa using h
    · exact stepLoop_path_le _ _ _ (by simpa using h)

/-- Fact: `QueueGood` only looks at the queue. -/
theorem queueGood_of_eq {a b : FsmSimulator}
    (h : a.internal_event_queue = b.internal_event_queue)
    (hb : QueueGood b = true) : QueueGood a = true := by
  unfold QueueGood at *
  rw [h]
  exact hb

/-- The transition scan only ever returns a transition whose event equals
the scanned event name. -/
theorem findTransition_event (trs : List Transition) (src ev : String)
    (t : Transition) (h : findTransition trs src ev = some t) : t.event = ev := by
  unfold findTransition at h
  have := List.find?_some h
  simp only [Bool.and_eq_true, beq_iff_eq] at this
  exact this.2

/-- Runs whose explicit internal events are all non-empty keep the queue
free of empty event names. -/
theorem runOps_queue_good (ops : List Op) :
    ∀ fsm : FsmSimulator, OpsGood ops = true → QueueGood fsm = true →
    QueueGood (runOps fsm ops) = true := by
  induction ops with
  | nil => intro fsm _ h; exact h
  | cons op rest ih =>
    intro fsm hg hq
    have hstep : runOps fsm (op :: rest) = runOps (applyOp fsm op) rest := rfl
    rw [hstep]
    have hrest : OpsGood rest = true := by
      cases op <;> simp [OpsGood] at hg <;> try exact hg
      exact hg.2
    refine ih _ hrest ?_
    cases op with
    | load d =>
      exact queueGood_of_eq (loadFromJson_sim_frame fsm d).2.2.2.2.2.2 hq
    | setVars kvs => exact queueGood_of_eq rfl hq
    | reset =>
      show QueueGood (reset fsm) = true
      unfold QueueGood
      rw [(reset_sim fsm).1]
      rfl
    | step ev =>
      show QueueGood (step fsm ev) = true
      unfold QueueGood at hq ⊢
      rw [List.all_eq_true] at hq ⊢
      intro x hx
      rcases step_queue_sub fsm ev x hx with h | ⟨hev, rfl⟩
      · exact hq x h
      · simpa using hev
    | resolve b =>
      exact queueGood_of_eq (resolve_condition_sim fsm b).1 hq
    | queueEvent e =>
      have he : e ≠ "" := by
        simp [OpsGood] at hg
        exact hg.1
      show QueueGood (queue_internal_event fsm e) = true
      unfold QueueGood at hq ⊢
      unfold queue_internal_event
      rw [List.all_eq_true] at hq ⊢
      intro x hx
      simp only [] at hx
      rw [List.mem_append] at hx
      rcases hx with h | h
      · exact hq x h
      · simp at h
        subst h
        simpa using he

/-- Every interface call keeps the state path at length at most one. -/
theorem runOps_path_le (ops : List Op) :
    ∀ fsm : FsmSimulator, fsm.current_state_path.length ≤ 1 →
    (runOps fsm ops).current_state_path.length ≤ 1 := by
  induction ops with
  | nil => intro fsm h; exact h
  | cons op rest ih =>
    intro fsm h
    have hstep : runOps fsm (op :: rest) = runOps (applyOp fsm op) rest := rfl
    rw [hstep]
    refine ih _ ?_
    cases op with
    | load d => rw [show (applyOp fsm (Op.load d)).current_state_path
        = fsm.current_state_path from (loadFromJson_sim_frame fsm d).2.1]; exact h
    | setVars kvs => exact h
    | reset => exact (reset_sim fsm).2.2.2.2.1
    | step ev => exact step_path_le fsm ev h
    | resolve b => exact (resolve_condition_sim fsm b).2 h
    | queueEvent e => exact h

/-! ### The claims -/

/-- C1, amended: when `load` fails, the call reports failure and every
Simulation State field (current state path, variables, initial variables,
tick, queue, log, pending transition) is untouched.  (The Model, contrary to
the original claim, is NOT preserved: it is cleared before parsing — see the
counterexample.) -/
theorem c1_load_failure_sim_state_untouched (fsm : FsmSimulator) (d : LoadDoc)
    (hfail : (loadFromJson fsm d).1 = false) :
    (loadFromJson fsm d).2.current_state_path = fsm.current_state_path ∧
    (loadFromJson fsm d).2.variables_ = fsm.variables_ ∧
    (loadFromJson fsm d).2.initial_variables = fsm.initial_variables ∧
    (loadFromJson fsm d).2.current_tick = fsm.current_tick ∧
    (loadFromJson fsm d).2.internal_event_queue = fsm.internal_event_queue ∧
    (loadFromJson fsm d).2.action_log = fsm.action_log ∧
    (loadFromJson fsm d).2.pending_transition = fsm.pending_transition := by
  obtain ⟨h1, h2, h3, h4, h5, h6, h7⟩ := loadFromJson_sim_frame fsm d
  exact ⟨h2, h3, h4, h1, h7, h5, h6⟩

/-- Witness for C1: a concrete failing load, with the hypothesis discharged
and the first conclusion read back. -/
theorem c1_load_failure_witness :
    (loadFromJson fsmLoaded LoadDoc.malformed).1 = false ∧
    (loadFromJson fsmLoaded LoadDoc.malformed).2.current_state_path
      = fsmLoaded.current_state_path :=
  ⟨by decide,
   (c1_load_failure_sim_state_untouched fsmLoaded LoadDoc.malformed (by decide)).1⟩

/-- Counterexample to C1 as stated: a failing load on a loaded interpreter
reports failure, yet the previous Model is NOT left untouched — the states
are cleared (the code clears the model containers before parsing). -/
theorem c1_load_failure_counterexample :
    (loadFromJson fsmLoaded LoadDoc.malformed).1 = false ∧
    (loadFromJson fsmLoaded LoadDoc.malformed).2.states ≠ fsmLoaded.states := by
  constructor
  · decide
  · decide

/-- C9, confirmed: `drain_log` is take-and-clear — the first call returns
exactly the entries accumulated since the last clear, in append order, and a
second call with no intervening mutation returns the empty log. -/
theorem c9_drain_log_take_and_clear (fsm : FsmSimulator) :
    (getAndClearLogJson fsm).1 = fsm.action_log ∧
    (getAndClearLogJson (getAndClearLogJson fsm).2).1 = [] :=
  ⟨rfl, rfl⟩

/-- C10, confirmed: `set_initial_variables` replaces only the stored
initial-variables snapshot; variables, current state, tick, log, pending
transition, queue, and the whole Model are unchanged, and the new snapshot
becomes the variables only after a subsequent `reset`. -/
theorem c10_set_initial_variables_frame (fsm : FsmSimulator)
    (kvs : List (String × String)) :
    (setInitialVariables fsm kvs).variables_ = fsm.variables_ ∧
    (setInitialVariables fsm kvs).current_state_path = fsm.current_state_path ∧
    (setInitialVariables fsm kvs).current_tick = fsm.current_tick ∧
    (setInitialVariables fsm kvs).action_log = fsm.action_log ∧
    (setInitialVariables fsm kvs).pending_transition = fsm.pending_transition ∧
    (setInitialVariables fsm kvs).internal_event_queue
      = fsm.internal_event_queue ∧
    (setInitialVariables fsm kvs).states = fsm.states ∧
    (setInitialVariables fsm kvs).state_map = fsm.state_map ∧
    (setInitialVariables fsm kvs).transitions = fsm.transitions ∧
    (reset (setInitialVariables fsm kvs)).variables_
      = (setInitialVariables fsm kvs).initial_variables := by
  refine ⟨rfl, rfl, rfl, rfl, rfl, rfl, rfl, rfl, rfl, ?_⟩
  exact (reset_sim _).2.2.2.1

/-- C2, amended: for a `step` call with a non-empty external event and a
current state present, the tick advances by exactly one per event dequeued
during the call — i.e. by the drop in queue length counting the pushed
external event — not by exactly one per call.  At least one event (the
external one) is dequeued, so the queue never ends longer than it began. -/
theorem c2_tick_counts_dequeued_events (fsm : FsmSimulator) (ev : String)
    (hev : ev ≠ "") (hpath : fsm.current_state_path ≠ []) :
    (step fsm ev).current_tick
      = fsm.current_tick + (fsm.internal_event_queue.length + 1
          - (step fsm ev).internal_event_queue.length) ∧
    (step fsm ev).internal_event_queue.length
      ≤ fsm.internal_event_queue.length := by
  unfold step
  simp only [hev, ne_eq, not_false_eq_true, if_true, ite_false, decide_True]
  split
  · rename_i hempty
    rw [List.isEmpty_iff] at hempty
    exact absurd hempty hpath
  · obtain ⟨h1, h2⟩ := stepLoop_tick_ext (fsm.internal_event_queue ++ [ev])
      ⟨fsm.states, fsm.state_map, fsm.transitions, fsm.current_tick,
        fsm.current_state_path, fsm.variables_, fsm.initial_variables, [],
        fsm.pending_transition, fsm.internal_event_queue ++ [ev]⟩ rfl
    have h3 := stepLoop_queue_len_cons ev [] true
    constructor
    · rw [h1]
      simp [List.length_append]
    · have hcons : ∃ a as, fsm.internal_event_queue ++ [ev] = a :: as
          ∧ as.length = fsm.internal_event_queue.length := by
        cases hq : fsm.internal_event_queue with
        | nil => exact ⟨ev, [], by simp, by simp⟩
        | cons a as => exact ⟨a, as ++ [ev], by simp, by simp⟩
      obtain ⟨a, as, hq1, hq2⟩ := hcons
      rw [hq1] at h2 ⊢
      have h4 := stepLoop_queue_len_cons a as true
        ⟨fsm.states, fsm.state_map, fsm.transitions, fsm.current_tick,
          fsm.current_state_path, fsm.variables_, fsm.initial_variables, [],
          fsm.pending_transition, a :: as⟩
      rw [← hq2]
      exact h4

/-- Witness for C2: a concrete step with non-empty external event. -/
theorem c2_tick_witness :
    ("E" ≠ "" ∧ fsmAB.current_state_path ≠ []) ∧
    (step fsmAB "E").current_tick
      = fsmAB.current_tick + (fsmAB.internal_event_queue.length + 1
          - (step fsmAB "E").internal_event_queue.length) :=
  ⟨⟨by decide, by decide⟩,
   (c2_tick_counts_dequeued_events fsmAB "E" (by decide) (by decide)).1⟩

/-- Counterexample to C2 as stated: with two internal events already queued
and no matching transitions, a `step` call with external event "E" dequeues
three events and advances the tick from 0 to 3 — not by exactly one. -/
theorem c2_tick_counterexample :
    fsmQueued.current_tick = 0 ∧ (step fsmQueued "E").current_tick = 3 :=
  ⟨by decide, by decide⟩

/-- Fact: `step` preserves states and transitions, and touches the name map only
by appending a null entry for an absent transition target. -/
theorem step_model_frame (fsm : FsmSimulator) (ev : String) :
    (step fsm ev).states = fsm.states ∧
    (step fsm ev).transitions = fsm.transitions ∧
    ((step fsm ev).state_map = fsm.state_map ∨
      ∃ k, alFind fsm.state_map k = none ∧
        (step fsm ev).state_map = fsm.state_map ++ [(k, none)]) := by
  unfold step
  simp only []
  by_cases hev : ev = ""
  · simp only [hev, ne_eq, not_true_eq_false, if_false, ite_true]
    split
    · simp
    · rw [executeAction_eq]
      refine ⟨?_, ?_, ?_⟩
      · exact (stepLoop_frame _ _ _).1
      · exact (stepLoop_frame _ _ _).2.1
      · exact (stepLoop_frame _ _ _).2.2.2.2
  · simp only [hev, ne_eq, not_false_eq_true, if_true, ite_false]
    split
    · simp
    · refine ⟨?_, ?_, ?_⟩
      · exact (stepLoop_frame _ _ _).1
      · exact (stepLoop_frame _ _ _).2.1
      · exact (stepLoop_frame _ _ _).2.2.2.2

/-- Fact: `resolve_condition` preserves states and transitions, and touches the
name map only by appending a null entry for an absent target. -/
theorem resolve_model_frame (fsm : FsmSimulator) (b : Bool) :
    (resolve_condition fsm b).states = fsm.states ∧
    (resolve_condition fsm b).transitions = fsm.transitions ∧
    ((resolve_condition fsm b).state_map = fsm.state_map ∨
      ∃ k, alFind fsm.state_map k = none ∧
        (resolve_condition fsm b).state_map = fsm.state_map ++ [(k, none)]) := by
  unfold resolve_condition
  simp only []
  split
  · simp
  · rename_i t _
    split
    · refine ⟨?_, ?_, ?_⟩
      · exact (executeTransition_frame _ t).1
      · exact (executeTransition_frame _ t).2.1
      · exact (executeTransition_frame _ t).2.2.2.2.2.2.2
    · simp [logAction_eq]

/-- C3, amended: `step` and `resolve_condition` never modify the states
sequence or the transitions sequence; the state-name map is also unchanged
EXCEPT that executing a transition whose target name is absent from the map
inserts a null entry for that name (`std::map::operator[]`), so in that one
case the map does change. -/
theorem c3_model_only_null_inserts (fsm : FsmSimulator) (ev : String)
    (b : Bool) :
    (step fsm ev).states = fsm.states ∧
    (step fsm ev).transitions = fsm.transitions ∧
    ((step fsm ev).state_map = fsm.state_map ∨
      ∃ k, alFind fsm.state_map k = none ∧
        (step fsm ev).state_map = fsm.state_map ++ [(k, none)]) ∧
    (resolve_condition fsm b).states = fsm.states ∧
    (resolve_condition fsm b).transitions = fsm.transitions ∧
    ((resolve_condition fsm b).state_map = fsm.state_map ∨
      ∃ k, alFind fsm.state_map k = none ∧
        (resolve_condition fsm b).state_map = fsm.state_map ++ [(k, none)]) := by
  obtain ⟨s1, s2, s3⟩ := step_model_frame fsm ev
  obtain ⟨r1, r2, r3⟩ := resolve_model_frame fsm b
  exact ⟨s1, s2, s3, r1, r2, r3⟩

/-- Counterexample to C3 as stated: stepping over a transition whose target
"M" is absent from the model modifies the name map — it gains the entry
("M", none). -/
theorem c3_map_insert_counterexample :
    (step fsmMissingTarget "go").state_map ≠ fsmMissingTarget.state_map ∧
    (step fsmMissingTarget "go").state_map
      = fsmMissingTarget.state_map ++ [("M", none)] :=
  ⟨by decide, by decide⟩

/-- C6, confirmed: `resolve_condition` first clears the action log; with no
pending transition it changes nothing else; with a pending transition and a
true verdict it executes that transition exactly as the unconditional case
does (same `executeTransition`); with a false verdict it appends exactly one
INFO entry and changes nothing else; in both verdict cases the pending
transition is cleared. -/
theorem c6_resolve_condition_protocol (fsm : FsmSimulator) (b : Bool) :
    resolve_condition fsm b =
      match fsm.pending_transition with
      | none => { fsm with action_log := [] }
      | some t =>
        if b then
          { executeTransition { fsm with action_log := [] } t with
              pending_transition := none }
        else
          { fsm with
              action_log := [⟨"INFO", "Condition failed, transition aborted."⟩]
              pending_transition := none } := by
  unfold resolve_condition
  simp only []
  split
  · rename_i hp
    rw [hp]
  · rename_i t hp
    rw [hp]
    split
    · rfl
    · simp [logAction_eq, optEntry]

/-- C7, amended: a transition with an empty event field is never selected as
long as every explicitly queued internal event is non-empty — under such
call sequences the queue never contains an empty event name, and the scan
only returns transitions whose event equals the (then non-empty) dequeued
event.  (Queueing an empty internal event DOES let an empty-event transition
fire — see the counterexample.) -/
theorem c7_empty_event_unmatched_via_nonempty_queues (ops : List Op)
    (hg : OpsGood ops = true) :
    QueueGood (runOps create ops) = true ∧
    (∀ (src ev : String) (t : Transition), ev ≠ "" →
      findTransition (runOps create ops).transitions src ev = some t →
      t.event ≠ "") := by
  constructor
  · exact runOps_queue_good ops create hg (by decide)
  · intro src ev t hev hf
    rw [findTransition_event _ _ _ _ hf]
    exact hev

/-- Witness for C7: a concrete good call sequence. -/
theorem c7_empty_event_witness :
    OpsGood [Op.queueEvent "go"] = true ∧
    QueueGood (runOps create [Op.queueEvent "go"]) = true :=
  ⟨by decide,
   (c7_empty_event_unmatched_via_nonempty_queues [Op.queueEvent "go"]
      (by decide)).1⟩

/-- Counterexample to C7 as stated: the model's only transition is
"A" to "B" with an EMPTY event field; after `queue_internal_event ""` and a
pure-tick step, the machine is in "B" — the empty-event transition was
matched and taken. -/
theorem c7_empty_event_counterexample :
    getCurrentStateName fsmEmptyEvent = "B" := by decide

/-- C8, confirmed: in every state reachable through the public interface
(create, load, set_initial_variables, reset, step, resolve_condition,
queue_internal_event) the current-state path holds at most one entry. -/
theorem c8_path_at_most_one (fsm : FsmSimulator) (h : Reachable fsm) :
    fsm.current_state_path.length ≤ 1 := by
  obtain ⟨ops, rfl⟩ := h
  exact runOps_path_le ops create (by decide)

/-- Witness for C8: a concrete reachable state. -/
theorem c8_path_witness :
    Reachable (runOps create [Op.reset]) ∧
    (runOps create [Op.reset]).current_state_path.length ≤ 1 :=
  ⟨⟨[Op.reset], rfl⟩, c8_path_at_most_one _ ⟨[Op.reset], rfl⟩⟩

/-- Fact: `step` on a non-halted interpreter is the event loop run on the queue
with the external event appended (when non-empty), after the log clear and
the pure-tick during-action handling. -/
theorem step_loop_entry (fsm : FsmSimulator) (ev : String)
    (hne : fsm.current_state_path ≠ []) :
    step fsm ev = stepLoop
      (if ev = "" then fsm.internal_event_queue
        else fsm.internal_event_queue ++ [ev])
      (decide (ev ≠ ""))
      { fsm with
          action_log := if ev = "" then
              optEntry "DURING_ACTION" (leafStateD fsm).during_action
            else []
          current_tick := if ev = "" then fsm.current_tick + 1
            else fsm.current_tick
          internal_event_queue := if ev = "" then fsm.internal_event_queue
            else fsm.internal_event_queue ++ [ev] } := by
  unfold step
  by_cases hev : ev = ""
  · subst hev
    simp only [ne_eq, not_true_eq_false, if_false, ite_true, ite_false,
      decide_False, decide_not]
    split
    · rename_i hempty
      rw [List.isEmpty_iff] at hempty
      exact absurd hempty hne
    · rw [executeAction_eq]
      congr 1
  · simp only [ne_eq, hev, not_false_eq_true, if_true, ite_false, decide_True]
    split
    · rename_i hempty
      rw [List.isEmpty_iff] at hempty
      exact absurd hempty hne
    · rfl

/-- C5, confirmed: when the first matching transition for a dequeued event
has a non-empty condition, the call logs exactly one `AWAIT_CONDITION` entry
carrying the condition text (after the during-action entry when the call was
a pure tick), stores that transition as pending, and returns with the
current state, Model, and variables unchanged; the dequeued event is
consumed and the remaining queued events are retained in order. -/
theorem c5_conditional_transition_awaits (fsm : FsmSimulator) (ev : String)
    (cIdx : Nat) (cur : State) (pre : List String) (e : String)
    (post : List String) (t : Transition)
    (hpath : fsm.current_state_path = [cIdx])
    (hstate : fsm.states[cIdx]? = some cur)
    (hq : (if ev = "" then fsm.internal_event_queue
        else fsm.internal_event_queue ++ [ev]) = pre ++ e :: post)
    (hnm : ∀ x ∈ pre, findTransition fsm.transitions cur.name x = none)
    (hfind : findTransition fsm.transitions cur.name e = some t)
    (hcond : t.condition ≠ "") :
    (step fsm ev).action_log
        = (if ev = "" then optEntry "DURING_ACTION" cur.during_action else [])
          ++ [⟨"AWAIT_CONDITION", t.condition⟩] ∧
    (step fsm ev).pending_transition = some t ∧
    (step fsm ev).current_state_path = fsm.current_state_path ∧
    (step fsm ev).internal_event_queue = post ∧
    (step fsm ev).states = fsm.states ∧
    (step fsm ev).state_map = fsm.state_map ∧
    (step fsm ev).transitions = fsm.transitions ∧
    (step fsm ev).variables_ = fsm.variables_ := by
  have hne : fsm.current_state_path ≠ [] := by rw [hpath]; simp
  have hleaf : leafStateD fsm = cur := by
    simp [leafStateD, hpath, hstate]
  obtain ⟨tk, hsk⟩ := stepLoop_skip pre (decide (ev ≠ "")) e post
    ⟨fsm.states, fsm.state_map, fsm.transitions,
      (if ev = "" then fsm.current_tick + 1 else fsm.current_tick),
      fsm.current_state_path, fsm.variables_, fsm.initial_variables,
      (if ev = "" then optEntry "DURING_ACTION" cur.during_action else []),
      fsm.pending_transition, pre ++ e :: post⟩ cIdx cur hpath hstate rfl hnm
  have hall : step fsm ev = stepLoop (e :: post) (decide (ev ≠ ""))
      ⟨fsm.states, fsm.state_map, fsm.transitions, tk,
        fsm.current_state_path, fsm.variables_, fsm.initial_variables,
        (if ev = "" then optEntry "DURING_ACTION" cur.during_action else []),
        fsm.pending_transition, e :: post⟩ := by
    rw [step_loop_entry fsm ev hne, hq, hleaf]
    exact hsk
  have hfin := stepLoop_await (decide (ev ≠ "")) e post
    ⟨fsm.states, fsm.state_map, fsm.transitions, tk,
      fsm.current_state_path, fsm.variables_, fsm.initial_variables,
      (if ev = "" then optEntry "DURING_ACTION" cur.during_action else []),
      fsm.pending_transition, e :: post⟩ cIdx cur t hpath hstate hfind hcond
  rw [hall, hfin]
  exact ⟨rfl, rfl, rfl, rfl, rfl, rfl, rfl, rfl⟩

/-- C4, amended: when the first matching transition for a dequeued event is
unconditional AND its target is present in the model, the transition
executes exactly once, appending to the log, in order (after the
during-action entry when the call was a pure tick): `EXIT_STATE` if the
exited state's exit action is non-empty, `TRANSITION_ACTION` if the
transition's action is non-empty, `ENTRY_STATE` if the target's entry action
is non-empty — and the current state becomes the target.  (With an absent
target the machine halts instead — see the counterexample.) -/
theorem c4_unconditional_transition_executes (fsm : FsmSimulator)
    (ev : String) (cIdx : Nat) (cur : State) (pre : List String) (e : String)
    (post : List String) (t : Transition) (tIdx : Nat) (tgt : State)
    (hpath : fsm.current_state_path = [cIdx])
    (hstate : fsm.states[cIdx]? = some cur)
    (hq : (if ev = "" then fsm.internal_event_queue
        else fsm.internal_event_queue ++ [ev]) = pre ++ e :: post)
    (hnm : ∀ x ∈ pre, findTransition fsm.transitions cur.name x = none)
    (hfind : findTransition fsm.transitions cur.name e = some t)
    (hcond : t.condition = "")
    (hmap : alFind fsm.state_map t.target = some (some tIdx))
    (htgt : fsm.states[tIdx]? = some tgt) :
    (step fsm ev).action_log
        = (if ev = "" then optEntry "DURING_ACTION" cur.during_action else [])
          ++ optEntry "EXIT_STATE" cur.exit_action
          ++ optEntry "TRANSITION_ACTION" t.action
          ++ optEntry "ENTRY_STATE" tgt.entry_action ∧
    (step fsm ev).current_state_path = [tIdx] ∧
    (step fsm ev).internal_event_queue = post ∧
    (step fsm ev).pending_transition = fsm.pending_transition ∧
    (step fsm ev).states = fsm.states ∧
    (step fsm ev).state_map = fsm.state_map ∧
    (step fsm ev).transitions = fsm.transitions ∧
    (step fsm ev).variables_ = fsm.variables_ := by
  have hne : fsm.current_state_path ≠ [] := by rw [hpath]; simp
  have hleaf : leafStateD fsm = cur := by
    simp [leafStateD, hpath, hstate]
  obtain ⟨tk, hsk⟩ := stepLoop_skip pre (decide (ev ≠ "")) e post
    ⟨fsm.states, fsm.state_map, fsm.transitions,
      (if ev = "" then fsm.current_tick + 1 else fsm.current_tick),
      fsm.current_state_path, fsm.variables_, fsm.initial_variables,
      (if ev = "" then optEntry "DURING_ACTION" cur.during_action else []),
      fsm.pending_transition, pre ++ e :: post⟩ cIdx cur hpath hstate rfl hnm
  have hall : step fsm ev = stepLoop (e :: post) (decide (ev ≠ ""))
      ⟨fsm.states, fsm.state_map, fsm.transitions, tk,
        fsm.current_state_path, fsm.variables_, fsm.initial_variables,
        (if ev = "" then optEntry "DURING_ACTION" cur.during_action else []),
        fsm.pending_transition, e :: post⟩ := by
    rw [step_loop_entry fsm ev hne, hq, hleaf]
    exact hsk
  have hfin := stepLoop_take (decide (ev ≠ "")) e post
    ⟨fsm.states, fsm.state_map, fsm.transitions, tk,
      fsm.current_state_path, fsm.variables_, fsm.initial_variables,
      (if ev = "" then optEntry "DURING_ACTION" cur.during_action else []),
      fsm.pending_transition, e :: post⟩ cIdx cur t tIdx tgt hpath hstate
      hfind hcond hmap htgt
  rw [hall, hfin]
  exact ⟨by simp, rfl, rfl, rfl, rfl, rfl, rfl, rfl⟩

/-- Witness for C5: the guarded transition "A" to "B" on "go" suspends the
machine with one `AWAIT_CONDITION` entry. -/
theorem c5_conditional_witness :
    (step fsmCond "go").pending_transition
      = some ⟨"A", "B", "go", "x > 1", "act"⟩ ∧
    (step fsmCond "go").action_log = [⟨"AWAIT_CONDITION", "x > 1"⟩] ∧
    (step fsmCond "go").current_state_path = fsmCond.current_state_path :=
  have h := c5_conditional_transition_awaits fsmCond "go" 0 stateA [] "go" []
    ⟨"A", "B", "go", "x > 1", "act"⟩ (by decide) (by decide) (by decide)
    (by simp) (by decide) (by decide)
  ⟨h.2.1, h.1, h.2.2.1⟩

/-- Witness for C4: the unconditional transition "A" to "B" on "go" with the
target present executes once, logging exit, transition, and entry actions. -/
theorem c4_unconditional_witness :
    (step fsmAB "go").current_state_path = [1] ∧
    (step fsmAB "go").action_log
      = [⟨"EXIT_STATE", "bye"⟩, ⟨"TRANSITION_ACTION", "act"⟩,
         ⟨"ENTRY_STATE", "enterB"⟩] :=
  have h := c4_unconditional_transition_executes fsmAB "go" 0 stateAx [] "go"
    [] ⟨"A", "B", "go", "", "act"⟩ 1 stateB (by decide) (by decide)
    (by decide) (by simp) (by decide) rfl (by decide) (by decide)
  ⟨h.2.1, h.1⟩

/-- Counterexample to C4 as stated: the unconditional transition "A" to "M"
on "go" matches and executes, but its target "M" is absent from the model,
so the current state does NOT become the transition's target — the
interpreter halts with an empty path. -/
theorem c4_missing_target_counterexample :
    findTransition fsmMissingTarget.transitions "A" "go"
      = some ⟨"A", "M", "go", "", "act"⟩ ∧
    (step fsmMissingTarget "go").current_state_path = [] ∧
    getCurrentStateName (step fsmMissingTarget "go") = "Halted" :=
  ⟨by decide, by decide, by decide⟩

end FsmCore
